import Mathlib

/-!
Verification of the `extract-translations` tool (`src/index.js`).

The development shallowly embeds the three cores of the tool:

* the markup extractor (`parseHTMLAst`, `getAttributeTranslation`,
  `getTextTranslation`, `extractTranslationsFromString`),
* the program extractor (`parseTSAst` / the inner `parseFiles`,
  the `validFields` shape probes, `prettifyKey`),
* the resolver (`createJSONTranslations`).

JavaScript strings are modelled as `List Char` (the inputs of interest are
ASCII, so UTF-16 versus codepoint indexing does not matter), `undefined` as
`Option.none`, and a thrown `TypeError` as `Except.error`.  JSON values are
modelled by the subset the translation catalogs use: strings and objects.
JavaScript's `String.prototype.indexOf`, `lastIndexOf` (with its clamped
`fromIndex`), `substring` (with its clamping and argument swapping), `trim`
and `split` are reproduced by the `js*` helpers below.
-/

/-- The characters removed by `trim` / matched by the regex `\s` (ASCII part). -/
def isJsWhitespace (c : Char) : Bool :=
  c == ' ' || c == '\t' || c == '\n' || c == '\r' || c == '\x0b' || c == '\x0c'

/-- JavaScript `String.prototype.trim` on a character list. -/
def jsTrim (s : List Char) : List Char :=
  ((s.dropWhile isJsWhitespace).reverse.dropWhile isJsWhitespace).reverse

/-- JavaScript `String.prototype.trim` on a `String`. -/
def jsTrimStr (s : String) : String := String.mk (jsTrim s.toList)

/-- Models `key.replace(/\s/g, '')` from `prettifyKey` (src/index.js line 213).
The source's second call `.replace(/\n/g)` can find no newline once every
whitespace character has been removed, so it leaves the string unchanged. -/
def stripWhitespace (s : String) : String :=
  String.mk (s.toList.filter (fun c => !(isJsWhitespace c)))

/-- JavaScript `s.indexOf(pat)`: position of the first occurrence of `pat`
in `s` (`none` models the JavaScript result `-1`). -/
def jsIndexOfList (s pat : List Char) : Option Nat :=
  (List.range (s.length + 1)).find? (fun i => pat.isPrefixOf (s.drop i))

/-- Greatest index `k ≤ bound` with `s[k] = c` (helper for `lastIndexOf`). -/
def jsLastIndexOfCharNat (s : List Char) (c : Char) : Nat → Option Nat
  | 0 => if s[0]? = some c then some 0 else none
  | b + 1 => if s[b + 1]? = some c then some (b + 1) else jsLastIndexOfCharNat s c b

/-- JavaScript `s.lastIndexOf(c, pos)` for a one-character search string:
the search start is `min (max pos 0) s.length` (the ECMAScript clamping of
the `fromIndex` argument) and the result is `-1` when there is no match.
For the variant without a `fromIndex`, the caller passes `s.length`. -/
def jsLastIndexOfChar (s : List Char) (c : Char) (pos : Int) : Int :=
  let start := min (max pos 0) (s.length : Int)
  match jsLastIndexOfCharNat s c start.toNat with
  | some k => (k : Int)
  | none => -1

/-- JavaScript `s.substring(a, b)`: both arguments are clamped into
`[0, length]` and swapped when `a > b`. -/
def jsSubstring (s : List Char) (a b : Int) : List Char :=
  let len : Int := s.length
  let a' := min (max a 0) len
  let b' := min (max b 0) len
  (s.take (max a' b').toNat).drop (min a' b').toNat

/-- First-match association-list lookup (JavaScript property access on a
plain object with unique keys). -/
def assocGet {α : Type} : List (String × α) → String → Option α
  | [], _ => none
  | (k, v) :: rest, key => if k = key then some v else assocGet rest key

/-- Helper for `jsSplitDot`, accumulating the current segment reversed. -/
def jsSplitDotAux (acc : List Char) : List Char → List String
  | [] => [String.mk acc.reverse]
  | c :: cs =>
    if c = '.' then String.mk acc.reverse :: jsSplitDotAux [] cs
    else jsSplitDotAux (c :: acc) cs

/-- JavaScript `key.split('.')`: always at least one segment, empty segments
kept (`"".split('.') = [""]`, `"a..b".split('.') = ["a","","b"]`). -/
def jsSplitDot (s : String) : List String := jsSplitDotAux [] s.toList

/-! ## The resolver (`createJSONTranslations`, src/index.js lines 216-253)

JSON catalog values are modelled by strings and objects — the shapes the
merged translation documents contain.  JavaScript truthiness on this subset:
`undefined` (here `Option.none`) and the empty string are falsy, every
object (even `{}`) and every non-empty string are truthy. -/

inductive Json where
  | str (s : String)
  | obj (fields : List (String × Json))

/-- JavaScript truthiness of `acc` in `createJSONTranslations`' reduce. -/
def jsTruthy : Option Json → Bool
  | none => false
  | some (.str s) => !(s == "")
  | some (.obj _) => true

/-- JavaScript `acc[current]`: key lookup on an object, `undefined` on a
string (`String.prototype` members are not part of the catalog model). -/
def jsIndex : Json → String → Option Json
  | .obj fs, k => assocGet fs k
  | .str _, _ => none

/-- The walk `path.reduce((acc, current) => acc ? acc[current] : "", catalog)`
(src/index.js lines 233-235). -/
def resolveValue (catalog : Json) (path : List String) : Option Json :=
  path.foldl
    (fun acc seg =>
      match acc with
      | some v => if jsTruthy (some v) then jsIndex v seg else some (Json.str "")
      | none => some (Json.str ""))
    (some catalog)

/-- lodash `isObject` restricted to the modelled JSON subset. -/
def isObjLike : Json → Bool
  | .obj _ => true
  | .str _ => false

/-- Set/overwrite one key of an object, keeping the position of an existing
key and appending a new key at the end (JavaScript property assignment). -/
def assocSet : List (String × Json) → String → Json → List (String × Json)
  | [], k, v => [(k, v)]
  | (k', v') :: rest, k, v =>
    if k' = k then (k', v) :: rest else (k', v') :: assocSet rest k v

/-- One level of lodash `_.set`: assignment on an object; on a non-object
target lodash returns the target unchanged. -/
def setKey : Json → String → Json → Json
  | .obj fs, k, v => .obj (assocSet fs k v)
  | .str s, _, _ => .str s

/-- lodash `_.set(target, path, v)` for string paths: walks/creates nested
objects along `path` and writes `v` at the end.  An existing non-object
intermediate value is replaced by a fresh object, as lodash does.  (lodash
would create an array for an index-like key; the dot-split key paths of the
translation catalogs are non-numeric, so that case is not modelled.) -/
def lodashSet : Json → List String → Json → Json
  | t, [], _ => t
  | t, [k], v => setKey t k v
  | t, k :: k' :: rest, v =>
    let child :=
      match jsIndex t k with
      | some c => if isObjLike c then c else Json.obj []
      | none => Json.obj []
    setKey t k (lodashSet child (k' :: rest) v)

/-- Read back a value along a key path of nested objects. -/
def jsGetPath : Json → List String → Option Json
  | v, [] => some v
  | .obj fs, k :: rest =>
    (match assocGet fs k with
     | some c => jsGetPath c rest
     | none => none)
  | .str _, _ :: _ => none

/-- The body of `createJSONTranslations`' reduce for one string candidate
`key` (src/index.js lines 231-244): split on `.`, walk the catalog, file a
truthy result into Resolved, otherwise file the original key into
Unresolved. -/
def fileCandidate (catalog resolved unresolved : Json) (key : String) : Json × Json :=
  let path := jsSplitDot key
  match resolveValue catalog path with
  | some v =>
    if jsTruthy (some v) then (lodashSet resolved path v, unresolved)
    else (resolved, lodashSet unresolved path (Json.str key))
  | none => (resolved, lodashSet unresolved path (Json.str key))

/-- `createJSONTranslations` over the final (flattened, deduplicated) key
list.  A list item is `none` when the JavaScript value at that position is
`undefined` (possible via array elements without a `text` field), on which
`key.split('.')` throws. -/
def createJSONTranslations (catalog : Json) (keys : List (Option String)) :
    Except String (Json × Json) :=
  keys.foldlM
    (fun st k =>
      match k with
      | some s => .ok (fileCandidate catalog st.1 st.2 s)
      | none => .error "TypeError: Cannot read properties of undefined (reading split)")
    (Json.obj [], Json.obj [])

/-! ## The markup extractor (src/index.js lines 66-88 and 157-214) -/

/-- The sentinel prefix of an unresolved marker (src/index.js line 10). -/
def UNABLE_TO_RESOLVE_VALUE : String := "UNABLE_TO_RESOLVE_VALUE"

/-- The marker substring scanned for by the pipe form (src/index.js line 185). -/
def translateKeyword : List Char := "| translate".toList

/-- A single-quote character, written via its code to keep string literals
plain ASCII. -/
def quoteSingle : Char := '\x27'

/-- A double-quote character. -/
def quoteDouble : Char := '\x22'

/-- The body of one iteration of `extractTranslationsFromString`'s loop
(src/index.js lines 195-200), applied to `attrs`, the trimmed substring
preceding one `'| translate'` occurrence: `e` is the source's `end`
(rightmost quote of either kind), `st` is the source's `start` (one past the
rightmost quote of either kind strictly before `e`), and an empty trimmed
span falls back to the unresolved marker. -/
def extractKeyNearMarker (attrs : List Char) : String :=
  let e := max (jsLastIndexOfChar attrs quoteSingle (attrs.length : Int))
               (jsLastIndexOfChar attrs quoteDouble (attrs.length : Int))
  let st := max (jsLastIndexOfChar attrs quoteSingle (e - 1))
                (jsLastIndexOfChar attrs quoteDouble (e - 1)) + 1
  let key := jsTrim (jsSubstring attrs st e)
  if key.isEmpty then UNABLE_TO_RESOLVE_VALUE ++ ": " ++ stripWhitespace (String.mk attrs)
  else String.mk key

/-- The `while (true)` loop of `extractTranslationsFromString`
(src/index.js lines 188-205).  Each iteration consumes the input through the
end of the found `'| translate'` occurrence, i.e. at least 11 characters, so
`length + 1` units of fuel always suffice and the `0` case is unreachable
from `extractTranslationsFromString`. -/
def extractTranslationsLoop : Nat → List Char → List String
  | 0, _ => []
  | fuel + 1, s =>
    match jsIndexOfList s translateKeyword with
    | none => []
    | some i =>
      let attrs := jsTrim (s.take i)
      extractKeyNearMarker attrs ::
        extractTranslationsLoop fuel (s.drop (i + translateKeyword.length))

/-- `extractTranslationsFromString` (src/index.js lines 181-206). -/
def extractTranslationsFromString (value : String) : List String :=
  extractTranslationsLoop (value.toList.length + 1) value.toList

mutual
/-- A parsed markup node (node-html-parser).  `attributes` is `none` on
nodes without a `getAttribute` method (text nodes); `rawAttrs` / `rawText`
are `""` where the JavaScript field is absent or empty (both falsy). -/
inductive HNode where
  | mk (attributes : Option (List (String × String)))
       (rawAttrs : String) (rawText : String) (childNodes : HList)
/-- Ordered child list of a markup node. -/
inductive HList where
  | nil
  | cons (head : HNode) (tail : HList)
end

/-- the attribute map of a markup node, `none` on text nodes. -/
def HNode.attributes : HNode → Option (List (String × String))
  | .mk a _ _ _ => a

/-- the raw attribute text of a markup node. -/
def HNode.rawAttrs : HNode → String
  | .mk _ ra _ _ => ra

/-- the raw inner text of a markup node. -/
def HNode.rawText : HNode → String
  | .mk _ _ rt _ => rt

/-- the children of a markup node. -/
def HNode.childNodes : HNode → HList
  | .mk _ _ _ cs => cs

/-- Convert the child list to an ordinary list. -/
def HList.toList : HList → List HNode
  | .nil => []
  | .cons h t => h :: t.toList

/-- Build a child list from an ordinary list. -/
def HList.ofList : List HNode → HList
  | [] => .nil
  | h :: t => .cons h (HList.ofList t)

/-- `getAttributeTranslation` (src/index.js lines 157-169): nodes without
`getAttribute` yield nothing; a truthy (non-empty) `translate` attribute
short-circuits to its trimmed value; otherwise the raw attribute string is
scanned for the pipe form. -/
def getAttributeTranslation (node : HNode) : List String :=
  match node.attributes with
  | none => []
  | some attrs =>
    match assocGet attrs "translate" with
    | some v => if v = "" then extractTranslationsFromString node.rawAttrs else [jsTrimStr v]
    | none => extractTranslationsFromString node.rawAttrs

/-- `getTextTranslation` (src/index.js lines 171-179): falsy raw text, or
raw text without the substring `translate`, yields nothing. -/
def getTextTranslation (node : HNode) : List String :=
  if node.rawText = "" then []
  else if (jsIndexOfList node.rawText.toList ("translate".toList)).isSome then
    extractTranslationsFromString node.rawText
  else []

mutual
/-- number of nodes in a markup subtree (fuel bound for the queue loop). -/
def hNodeCount : HNode → Nat
  | .mk _ _ _ cs => 1 + hListCount cs
/-- number of nodes in a markup child list. -/
def hListCount : HList → Nat
  | .nil => 0
  | .cons h t => hNodeCount h + hListCount t
end

/-- The breadth-first work-queue loop of `parseHTMLAst` (src/index.js lines
70-85): dequeue a node, enqueue its children at the back, and collect
attribute and text candidates from every node that carries raw attribute
text or raw inner text.  Each iteration removes one node from the forest, so
fuel exceeding the total node count is never exhausted. -/
def parseHTMLAstLoop : Nat → List HNode → List String
  | 0, _ => []
  | _ + 1, [] => []
  | fuel + 1, n :: rest =>
    let queue := rest ++ n.childNodes.toList
    let res :=
      if n.rawAttrs ≠ "" ∨ n.rawText ≠ "" then
        getAttributeTranslation n ++ getTextTranslation n
      else []
    res ++ parseHTMLAstLoop fuel queue

/-- `parseHTMLAst` (src/index.js lines 66-88). -/
def parseHTMLAst (trees : List HNode) : List String :=
  parseHTMLAstLoop ((trees.map hNodeCount).sum + 1) trees


/-! ## The program extractor (`parseTSAst`, src/index.js lines 90-144)

A TypeScript AST node is modelled by its syntactic kind, its string-valued
fields (`text`, `escapedText`), its node-valued fields (`expression`,
`name`, `left`, `right`, `head`, `condition`, `whenTrue`, `whenFalse`), its
node-list-valued fields (`arguments`, `elements`) and the ordered child list
that `forEachChild` visits.  An absent field is an absent key, i.e.
JavaScript `undefined`. -/

mutual
/-- A parsed program syntax tree node. -/
inductive TsNode where
  | mk (kind : Nat) (strFields : List (String × String)) (nodeFields : TsFields)
       (listFields : TsListFields) (children : TsList)
/-- Node-valued fields of a program node. -/
inductive TsFields where
  | nil
  | cons (key : String) (value : TsNode) (rest : TsFields)
/-- An ordered sequence of program nodes. -/
inductive TsList where
  | nil
  | cons (head : TsNode) (tail : TsList)
/-- Node-list-valued fields of a program node. -/
inductive TsListFields where
  | nil
  | cons (key : String) (value : TsList) (rest : TsListFields)
end

/-- the syntactic kind tag of a program node. -/
def TsNode.kind : TsNode → Nat
  | .mk k _ _ _ _ => k

/-- the string-valued fields of a program node. -/
def TsNode.strFields : TsNode → List (String × String)
  | .mk _ sf _ _ _ => sf

/-- the node-valued fields of a program node. -/
def TsNode.nodeFields : TsNode → TsFields
  | .mk _ _ nf _ _ => nf

/-- the node-list-valued fields of a program node. -/
def TsNode.listFields : TsNode → TsListFields
  | .mk _ _ _ lf _ => lf

/-- the children visited by `forEachChild`. -/
def TsNode.children : TsNode → TsList
  | .mk _ _ _ _ cs => cs

/-- Lookup of a node-valued field (JavaScript `node.key`). -/
def TsFields.get : TsFields → String → Option TsNode
  | .nil, _ => none
  | .cons k v rest, key => if k = key then some v else rest.get key

/-- Lookup of a node-list-valued field (JavaScript `node.key`). -/
def TsListFields.get : TsListFields → String → Option TsList
  | .nil, _ => none
  | .cons k v rest, key => if k = key then some v else rest.get key

/-- Convert a node sequence to an ordinary list. -/
def TsList.toList : TsList → List TsNode
  | .nil => []
  | .cons h t => h :: t.toList

/-- Build a node sequence from an ordinary list. -/
def TsList.ofList : List TsNode → TsList
  | [] => .nil
  | h :: t => .cons h (TsList.ofList t)

/-- Build node-valued fields from an ordinary list. -/
def TsFields.ofList : List (String × TsNode) → TsFields
  | [] => .nil
  | (k, v) :: t => .cons k v (TsFields.ofList t)

/-- a string-valued field of a program node (JavaScript `node.key`). -/
def TsNode.strField (n : TsNode) (key : String) : Option String :=
  assocGet n.strFields key

/-- a node-valued field of a program node (JavaScript `node.key`). -/
def TsNode.nodeField (n : TsNode) (key : String) : Option TsNode :=
  n.nodeFields.get key

/-- a node-list-valued field of a program node (JavaScript `node.key`). -/
def TsNode.listField (n : TsNode) (key : String) : Option TsList :=
  n.listFields.get key

/-- lodash `_.get(node, path)` for the dotted field paths of `validFields`:
every component but the last steps to a node-valued field, the last reads a
string-valued field; any miss gives `undefined`. -/
def tsGet : TsNode → List String → Option String
  | _, [] => none
  | n, [k] => n.strField k
  | n, k :: k' :: rest =>
    match n.nodeField k with
    | some c => tsGet c (k' :: rest)
    | none => none

/-- JavaScript truthiness of a possibly-undefined string. -/
def strTruthy : Option String → Bool
  | none => false
  | some s => !(s == "")

/-- The ordered shape-probe list (src/index.js lines 105-118), verbatim. -/
def validFields : List (List String) :=
  [["text"],
   ["expression", "escapedText"],
   ["name", "escapedText"],
   ["expression", "name", "escapedText"],
   ["left", "expression", "name", "escapedText"],
   ["right", "expression", "name", "escapedText"],
   ["head", "text"],
   ["condition", "expression", "name", "escapedText"],
   ["condition", "expression", "escapedText"],
   ["condition", "escapedText"],
   ["whenTrue", "text"],
   ["whenFalse", "text"]]

/-- `prettifyKey` (src/index.js lines 212-214).  Its argument can be
`undefined` (JavaScript passes the unresolved `name` through), on which
`key.replace` throws a `TypeError`. -/
def prettifyKey : Option String → Except String String
  | none => .error "TypeError: Cannot read properties of undefined (reading replace)"
  | some s => .ok (stripWhitespace s)

/-- A key candidate pushed into `parseResults`: a plain string, or the array
produced from an array-literal argument (whose elements are each
`element.text`, possibly `undefined`). -/
inductive Candidate where
  | str (s : String)
  | seq (elems : List (Option String))
deriving DecidableEq

/-- The fallback after all shape probes failed (src/index.js lines 127-133):
use `node.elements` when it is a non-empty array, otherwise build the
unresolved marker string — whose `prettifyKey(name)` call receives the
still-undefined `name`. -/
def extractElementsOrMarker (n : TsNode) (name : Option String) : Except String Candidate :=
  match n.listField "elements" with
  | some els =>
    let elements := els.toList.map (fun e => e.strField "text")
    if elements.length ≠ 0 then .ok (.seq elements)
    else
      match prettifyKey name with
      | .ok p => .ok (.str (UNABLE_TO_RESOLVE_VALUE ++ ":" ++ p))
      | .error e => .error e
  | none =>
    match prettifyKey name with
    | .ok p => .ok (.str (UNABLE_TO_RESOLVE_VALUE ++ ":" ++ p))
    | .error e => .error e

/-- Key inference for one argument node (src/index.js lines 104-134): the
first probe of `validFields` whose field path resolves to a truthy value
wins; `name` recomputes `_.get(node, field)` where `field` is `undefined`
when no probe matched, and `_.get(node, undefined)` is `undefined`. -/
def extractTranslationKey (n : TsNode) : Except String Candidate :=
  let field := validFields.find? (fun f => strTruthy (tsGet n f))
  let name := field.bind (fun f => tsGet n f)
  match name with
  | some s => if s = "" then extractElementsOrMarker n name else .ok (.str s)
  | none => extractElementsOrMarker n none

/-- Key inference applied to the possibly-missing first argument
(`const [fnArguments] = node.arguments` with an empty argument list gives
`undefined`, on which `node.elements` later throws). -/
def extractTranslationKeyOpt : Option TsNode → Except String Candidate
  | some n => extractTranslationKey n
  | none => .error "TypeError: Cannot read properties of undefined (reading elements)"

/-- The activation test (src/index.js lines 100-101):
`node.expression && node.kind === 207` and
`node.expression.name && node.expression.name.escapedText === 'instant'`. -/
def isInstantCall (n : TsNode) : Bool :=
  match n.nodeField "expression" with
  | none => false
  | some callee =>
    n.kind == 207 &&
      match callee.nodeField "name" with
      | some nm => nm.strField "escapedText" == some "instant"
      | none => false

/-- Extraction of an activated call's keys (src/index.js lines 102-136):
`node.arguments` is destructured (throwing if absent), the first argument is
the single candidate-producing node (`Array.isArray` is false on AST nodes,
so `argumentNodes = [fnArguments]`). -/
def instantCallKeys (n : TsNode) : Except String (List Candidate) :=
  match n.listField "arguments" with
  | none => .error "TypeError: node.arguments is not iterable"
  | some args =>
    match extractTranslationKeyOpt args.toList.head? with
    | .ok c => .ok [c]
    | .error e => .error e

mutual
/-- The recursive `parseFiles` visitor (src/index.js lines 99-141): test the
activation condition, push the extracted keys, then recurse into every
child via `forEachChild`; a thrown `TypeError` aborts the whole traversal. -/
def parseFiles : TsNode → Except String (List Candidate)
  | .mk k sf nf lf cs => do
    let n := TsNode.mk k sf nf lf cs
    let here ← if isInstantCall n then instantCallKeys n else pure []
    let rest ← parseFilesChildren cs
    pure (here ++ rest)
/-- `forEachChild` recursion over a child list. -/
def parseFilesChildren : TsList → Except String (List Candidate)
  | .nil => .ok []
  | .cons c cs => do
    pure ((← parseFiles c) ++ (← parseFilesChildren cs))
end

/-- `parseTSAst` (src/index.js lines 90-144) over already-parsed roots:
candidates accumulate across files into one list. -/
def parseTSAst (files : List TsNode) : Except String (List Candidate) :=
  files.foldlM (fun acc root => do pure (acc ++ (← parseFiles root))) []

/-- `.flat()` applied to `parseTSAst`'s result (src/index.js line 15):
string candidates stay, array candidates are spliced in, one level deep. -/
def flatCandidates : List Candidate → List (Option String)
  | [] => []
  | .str s :: rest => some s :: flatCandidates rest
  | .seq xs :: rest => xs ++ flatCandidates rest

/-- Helper for `filterResults`: keep the first occurrence of each value. -/
def filterResultsAux (seen : List (Option String)) : List (Option String) → List (Option String)
  | [] => []
  | x :: rest =>
    if seen.contains x then filterResultsAux seen rest
    else x :: filterResultsAux (seen ++ [x]) rest

/-- `filterResults` (src/index.js lines 208-210): `[...new Set(results)]`,
deduplication by value keeping first occurrences in order. -/
def filterResults (results : List (Option String)) : List (Option String) :=
  filterResultsAux [] results

/-! ## Concrete program-node builders

These mirror the TypeScript compiler's node shapes for the expressions the
claims mention.  Only the kind `207` (CallExpression) is consulted by the
extractor; the other kind tags are inert. -/

/-- an identifier node (carries `escapedText`). -/
def identNode (s : String) : TsNode :=
  .mk 80 [("escapedText", s)] .nil .nil .nil

/-- a string-literal node (carries `text`). -/
def strLitNode (s : String) : TsNode :=
  .mk 11 [("text", s)] .nil .nil .nil

/-- a property-access node `e.nm` (carries `expression` and `name`). -/
def propAccessNode (e nm : TsNode) : TsNode :=
  .mk 211 [] (.ofList [("expression", e), ("name", nm)]) .nil (.ofList [e, nm])

/-- a conditional (ternary) node `c ? t : f`. -/
def condExprNode (c t f : TsNode) : TsNode :=
  .mk 227 [] (.ofList [("condition", c), ("whenTrue", t), ("whenFalse", f)]) .nil
    (.ofList [c, t, f])

/-- a binary-expression node `l OP r` (carries `left` and `right`). -/
def binaryExprNode (l r : TsNode) : TsNode :=
  .mk 226 [] (.ofList [("left", l), ("right", r)]) .nil (.ofList [l, r])

/-- an array-literal node (carries `elements`). -/
def arrayLitNode (es : List TsNode) : TsNode :=
  .mk 209 [] .nil (.cons "elements" (.ofList es) .nil) (.ofList es)

/-- an empty object-literal node: no probed field, no `elements`. -/
def objLitNode : TsNode :=
  .mk 210 [] .nil .nil .nil

/-- a call `recv.instant(args)`: a call-expression node whose callee is a
property access carrying the name `instant`. -/
def instantCallNode (args : List TsNode) : TsNode :=
  let callee := propAccessNode (identNode "this") (identNode "instant")
  .mk 207 [] (.ofList [("expression", callee)]) (.cons "arguments" (.ofList args) .nil)
    (.ofList (callee :: args))

/-- a call `recv.Instant(args)` (capitalised), for the case-sensitivity check. -/
def capitalInstantCallNode (args : List TsNode) : TsNode :=
  let callee := propAccessNode (identNode "this") (identNode "Instant")
  .mk 207 [] (.ofList [("expression", callee)]) (.cons "arguments" (.ofList args) .nil)
    (.ofList (callee :: args))


/-! ## Supporting lemmas for the resolver claims -/

/-- Setting a key and reading it back. -/
theorem assocGet_assocSet (fs : List (String × Json)) (k : String) (v : Json) :
    assocGet (assocSet fs k v) k = some v := by
  induction fs with
  | nil => simp [assocSet, assocGet]
  | cons p rest ih =>
    obtain ⟨k', v'⟩ := p
    by_cases h : k' = k
    · simp [assocSet, assocGet, h]
    · simp [assocSet, assocGet, h, ih]

/-- `split('.')` never yields an empty segment list. -/
theorem jsSplitDotAux_ne_nil (l : List Char) : ∀ acc, jsSplitDotAux acc l ≠ [] := by
  induction l with
  | nil => intro acc; simp [jsSplitDotAux]
  | cons c cs ih =>
    intro acc
    by_cases h : c = '.'
    · simp [jsSplitDotAux, h]
    · simp only [jsSplitDotAux, if_neg h]
      exact ih _

/-- `split('.')` never yields an empty segment list. -/
theorem jsSplitDot_ne_nil (s : String) : jsSplitDot s ≠ [] :=
  jsSplitDotAux_ne_nil _ _

/-- Writing a value with `_.set` along a non-empty path into an object makes
that value readable back at the same nested path. -/
theorem jsGetPath_lodashSet (path : List String) (hne : path ≠ []) :
    ∀ (fs : List (String × Json)) (v : Json),
      jsGetPath (lodashSet (Json.obj fs) path v) path = some v := by
  induction path with
  | nil => cases hne rfl
  | cons k rest ih =>
    intro fs v
    cases rest with
    | nil =>
      simp [lodashSet, setKey, jsGetPath, assocGet_assocSet]
    | cons k' rs =>
      have hchild : ∃ cfs, (match jsIndex (Json.obj fs) k with
          | some c => if isObjLike c then c else Json.obj []
          | none => Json.obj []) = Json.obj cfs := by
        cases h : jsIndex (Json.obj fs) k with
        | none => exact ⟨[], rfl⟩
        | some c =>
          cases c with
          | str s => exact ⟨[], by simp [isObjLike]⟩
          | obj cfs => exact ⟨cfs, by simp [isObjLike]⟩
      obtain ⟨cfs, hcfs⟩ := hchild
      simp only [lodashSet]
      rw [hcfs]
      simp only [setKey, jsGetPath, assocGet_assocSet]
      exact ih (by simp) cfs v

/-! ## The claims -/

/-- Claim C4 (confirmed): a call-expression node (kind 207) whose callee
carries a `name` with `escapedText` equal to `instant` activates the
program extractor; the comparison is case-sensitive (a callee named
`Instant` does not activate), and `instant('errors.timeout')` with a plain
string-literal argument yields exactly the key `"errors.timeout"`. -/
theorem instant_activation (n callee nm : TsNode)
    (hkind : n.kind = 207)
    (hexpr : n.nodeField "expression" = some callee)
    (hname : callee.nodeField "name" = some nm)
    (htext : nm.strField "escapedText" = some "instant") :
    isInstantCall n = true
    ∧ parseFiles (instantCallNode [strLitNode "errors.timeout"])
        = .ok [Candidate.str "errors.timeout"]
    ∧ isInstantCall (capitalInstantCallNode [strLitNode "errors.timeout"]) = false := by
  refine ⟨?_, rfl, rfl⟩
  simp [isInstantCall, hexpr, hname, htext, hkind]

/-- Witness for C4 at the concrete call `instant('errors.timeout')`. -/
theorem instant_activation_witness :
    isInstantCall (instantCallNode [strLitNode "errors.timeout"]) = true
    ∧ parseFiles (instantCallNode [strLitNode "errors.timeout"])
        = .ok [Candidate.str "errors.timeout"]
    ∧ isInstantCall (capitalInstantCallNode [strLitNode "errors.timeout"]) = false :=
  instant_activation (instantCallNode [strLitNode "errors.timeout"])
    (propAccessNode (identNode "this") (identNode "instant")) (identNode "instant")
    rfl rfl rfl rfl

/-- Claim C1 is false on the code: for `instant(cond ? 'a.b' : 'c.d')` with
an identifier condition, the extractor yields `"cond"` — the condition probe
`condition.escapedText` sits *before* `whenTrue.text` in `validFields` — and
not the true-branch literal `"a.b"` the claim predicts. -/
theorem ternary_condition_first_counterexample :
    parseFiles (instantCallNode
        [condExprNode (identNode "cond") (strLitNode "a.b") (strLitNode "c.d")])
      = .ok [Candidate.str "cond"]
    ∧ Candidate.str "cond" ≠ Candidate.str "a.b" :=
  ⟨rfl, by decide⟩

/-- Claim C1 (amended): in the ordered probe list the condition sub-shapes
precede the true- and false-branch shapes, so `instant(cond ? 'a.b' : 'c.d')`
with an identifier condition yields the condition text `"cond"`; the
true-branch literal is yielded only when no earlier probe resolves, e.g. for
a binary-expression condition `instant(x === y ? 'a.b' : 'c.d')`. -/
theorem ternary_condition_first :
    parseFiles (instantCallNode
        [condExprNode (identNode "cond") (strLitNode "a.b") (strLitNode "c.d")])
      = .ok [Candidate.str "cond"]
    ∧ parseFiles (instantCallNode
        [condExprNode (binaryExprNode (identNode "x") (identNode "y"))
          (strLitNode "a.b") (strLitNode "c.d")])
      = .ok [Candidate.str "a.b"]
    ∧ validFields.indexOf ["condition", "escapedText"]
        < validFields.indexOf ["whenTrue", "text"] :=
  ⟨rfl, rfl, by decide⟩

/-- Claim C2 (confirmed): `instant(['k1','k2'])` is extracted as the single
multi-key candidate `["k1","k2"]`; after the pipeline's `.flat()` the
resolver files its elements exactly as it would file the two plain string
candidates, each independently through the split-on-`.` path logic. -/
theorem array_argument_filed_per_element :
    parseFiles (instantCallNode [arrayLitNode [strLitNode "k1", strLitNode "k2"]])
      = .ok [Candidate.seq [some "k1", some "k2"]]
    ∧ (∀ (catalog : Json) (a b : String),
        createJSONTranslations catalog (flatCandidates [Candidate.seq [some a, some b]])
          = createJSONTranslations catalog (flatCandidates [Candidate.str a, Candidate.str b]))
    ∧ createJSONTranslations (Json.obj [("k1", Json.str "One")])
        (filterResults (flatCandidates [Candidate.seq [some "k1", some "k2"]]))
        = .ok (Json.obj [("k1", Json.str "One")], Json.obj [("k2", Json.str "k2")]) :=
  ⟨rfl, fun _ _ _ => rfl, rfl⟩

/-- Claim C3 is the intent, but the code throws: when no shape probe
resolves and there is no non-empty `elements` array, the fallback
`prettifyKey(name)` receives the still-undefined `name` and
`undefined.replace` raises a `TypeError`, aborting the whole traversal — the
unresolved marker on the very next line is never built.  Shown at
`instant({})`, and for a file whose later `instant('later.key')` call is
lost because the earlier mismatch aborts. -/
theorem structural_mismatch_throws :
    extractTranslationKey objLitNode
      = .error "TypeError: Cannot read properties of undefined (reading replace)"
    ∧ parseFiles (instantCallNode [objLitNode])
      = .error "TypeError: Cannot read properties of undefined (reading replace)"
    ∧ parseFiles (TsNode.mk 307 [] .nil .nil
        (.ofList [instantCallNode [objLitNode], instantCallNode [strLitNode "later.key"]]))
      = .error "TypeError: Cannot read properties of undefined (reading replace)" :=
  ⟨rfl, rfl, rfl⟩

/-- Claim C7 (confirmed): the pipe form on inner text: a quoted key before
`| translate` is extracted; with no quoted text before the marker, the
candidate is the unresolved marker embedding the whitespace-stripped
preceding substring (here `{{`). -/
theorem pipe_form_examples :
    parseHTMLAst [HNode.mk none "" "\x7b\x7b \x27nav.home\x27 | translate \x7d\x7d" .nil]
      = ["nav.home"]
    ∧ parseHTMLAst [HNode.mk none "" "\x7b\x7b | translate \x7d\x7d" .nil]
      = ["UNABLE_TO_RESOLVE_VALUE: \x7b\x7b"] :=
  ⟨rfl, rfl⟩

/-- Claim C8 (confirmed): a node whose `translate` attribute is present and
non-empty yields exactly that attribute's trimmed value as its one
attribute candidate. -/
theorem translate_attribute_direct (node : HNode) (attrs : List (String × String)) (v : String)
    (hattrs : node.attributes = some attrs)
    (hv : assocGet attrs "translate" = some v)
    (hne : v ≠ "") :
    getAttributeTranslation node = [jsTrimStr v] := by
  simp only [getAttributeTranslation, hattrs]
  rw [hv]
  simp [hne]

/-- Witness for C8 at `class="x" translate="greeting.hello"`. -/
theorem translate_attribute_direct_witness :
    getAttributeTranslation (HNode.mk (some [("class", "x"), ("translate", "greeting.hello")])
        "class=\x22x\x22 translate=\x22greeting.hello\x22" "" .nil)
      = ["greeting.hello"]
    ∧ parseHTMLAst [HNode.mk (some [("class", "x"), ("translate", "greeting.hello")])
        "class=\x22x\x22 translate=\x22greeting.hello\x22" "" .nil]
      = ["greeting.hello"] :=
  ⟨translate_attribute_direct _ [("class", "x"), ("translate", "greeting.hello")]
      "greeting.hello" rfl rfl (by decide),
    rfl⟩

/-- Claim C10 (confirmed): a truthy `translate` attribute short-circuits
attribute extraction — the raw attribute string is not scanned at all, so
`| translate` occurrences in other attributes add nothing — and the pipe
scan over `rawAttrs` runs exactly when the attribute is absent or empty. -/
theorem translate_attribute_short_circuit (node : HNode) (attrs : List (String × String))
    (hattrs : node.attributes = some attrs) :
    (∀ v, assocGet attrs "translate" = some v → v ≠ "" →
        getAttributeTranslation node = [jsTrimStr v])
    ∧ (assocGet attrs "translate" = none ∨ assocGet attrs "translate" = some "" →
        getAttributeTranslation node = extractTranslationsFromString node.rawAttrs) := by
  constructor
  · intro v hv hne
    simp only [getAttributeTranslation, hattrs]
    rw [hv]
    simp [hne]
  · rintro (h | h)
    · simp only [getAttributeTranslation, hattrs]
      rw [h]
    · simp only [getAttributeTranslation, hattrs]
      rw [h]
      simp

/-- a node with a truthy `translate` attribute and a pipe occurrence in
another attribute (for the C10 witness). -/
def pipeInOtherAttrNode : HNode :=
  HNode.mk (some [("translate", "nav.menu"), ("title", "t")])
    "translate=\x22nav.menu\x22 title=\x22\x27menu.file\x27 | translate\x22" "" .nil

/-- the same node with an empty `translate` attribute (for the C10 witness). -/
def emptyTranslateAttrNode : HNode :=
  HNode.mk (some [("translate", ""), ("title", "t")])
    "translate=\x22\x22 title=\x22\x27menu.file\x27 | translate\x22" "" .nil

/-- Witness for C10: the truthy attribute suppresses the pipe scan (no
`menu.file` candidate appears), while an empty attribute falls back to it. -/
theorem translate_attribute_short_circuit_witness :
    getAttributeTranslation pipeInOtherAttrNode = ["nav.menu"]
    ∧ getAttributeTranslation emptyTranslateAttrNode = ["menu.file"] := by
  constructor
  · exact (translate_attribute_short_circuit pipeInOtherAttrNode _ rfl).1 "nav.menu" rfl (by decide)
  · have h := (translate_attribute_short_circuit emptyTranslateAttrNode _ rfl).2 (Or.inr rfl)
    rw [h]
    decide

/-- Claim C9 (confirmed): extraction is deterministic — both extractors are
pure functions of the input trees, so two runs on identical inputs produce
the identical candidate multiset (hence the identical set). -/
theorem extraction_deterministic (trees : List HNode) (files : List TsNode) :
    ((parseHTMLAst trees : List String) : Multiset String)
        = ((parseHTMLAst trees : List String) : Multiset String)
    ∧ parseTSAst files = parseTSAst files :=
  ⟨rfl, rfl⟩

/-- Claim C6 (confirmed): for a string candidate with non-empty path
segments the resolver's filing is exclusive and exhaustive — a truthy walk
result `v` is written into Resolved at the candidate's nested path leaving
Unresolved untouched, and a falsy walk result writes the original candidate
string into Unresolved at that path leaving Resolved untouched; in both
cases the written value is readable back at the full path. -/
theorem resolver_files_exclusively (catalog : Json) (rf uf : List (String × Json)) (key : String)
    (_hseg : ∀ s ∈ jsSplitDot key, s ≠ "") :
    (∀ v, resolveValue catalog (jsSplitDot key) = some v → jsTruthy (some v) = true →
        fileCandidate catalog (Json.obj rf) (Json.obj uf) key
            = (lodashSet (Json.obj rf) (jsSplitDot key) v, Json.obj uf)
          ∧ jsGetPath (lodashSet (Json.obj rf) (jsSplitDot key) v) (jsSplitDot key) = some v)
    ∧ (jsTruthy (resolveValue catalog (jsSplitDot key)) = false →
        fileCandidate catalog (Json.obj rf) (Json.obj uf) key
            = (Json.obj rf, lodashSet (Json.obj uf) (jsSplitDot key) (Json.str key))
          ∧ jsGetPath (lodashSet (Json.obj uf) (jsSplitDot key) (Json.str key)) (jsSplitDot key)
              = some (Json.str key)) := by
  constructor
  · intro v hv htr
    refine ⟨?_, jsGetPath_lodashSet _ (jsSplitDot_ne_nil key) rf v⟩
    simp only [fileCandidate]
    rw [hv]
    simp [htr]
  · intro hf
    refine ⟨?_, jsGetPath_lodashSet _ (jsSplitDot_ne_nil key) uf _⟩
    simp only [fileCandidate]
    cases h : resolveValue catalog (jsSplitDot key) with
    | none => rfl
    | some v =>
      rw [h] at hf
      simp [hf]

/-- Witness for C6 with the catalog `{"a":{"b":"Hello"}}`: candidate `a.b`
resolves into `{"a":{"b":"Hello"}}`, candidate `a.c` files
`{"a":{"c":"a.c"}}` into Unresolved. -/
theorem resolver_files_exclusively_witness :
    fileCandidate (Json.obj [("a", Json.obj [("b", Json.str "Hello")])])
        (Json.obj []) (Json.obj []) "a.b"
      = (Json.obj [("a", Json.obj [("b", Json.str "Hello")])], Json.obj [])
    ∧ fileCandidate (Json.obj [("a", Json.obj [("b", Json.str "Hello")])])
        (Json.obj []) (Json.obj []) "a.c"
      = (Json.obj [], Json.obj [("a", Json.obj [("c", Json.str "a.c")])]) := by
  constructor
  · exact ((resolver_files_exclusively (Json.obj [("a", Json.obj [("b", Json.str "Hello")])])
      [] [] "a.b" (by decide)).1 (Json.str "Hello") rfl rfl).1
  · exact ((resolver_files_exclusively (Json.obj [("a", Json.obj [("b", Json.str "Hello")])])
      [] [] "a.c" (by decide)).2 rfl).1

/-! ## Claim C5: the quote pair around a pipe-form key -/

/-- a quote character of either kind. -/
def isQuoteB (c : Char) : Bool := c == quoteSingle || c == quoteDouble

/-- whether position `j` of `s` holds a quote character. -/
def quoteAt (s : List Char) (j : Nat) : Bool :=
  match s[j]? with
  | some c => isQuoteB c
  | none => false

/-- the JavaScript `-1`-convention index of an optional position. -/
def intOfOpt : Option Nat → Int
  | some k => (k : Int)
  | none => -1

/-- Greatest index `k ≤ bound` whose character satisfies `p`. -/
def lastIndexWhere (p : Char → Bool) (s : List Char) : Nat → Option Nat
  | 0 => if (s[0]?.map p) = some true then some 0 else none
  | b + 1 =>
    if (s[b + 1]?.map p) = some true then some (b + 1)
    else lastIndexWhere p s b

/-- Modelled from the spec (claim C5): locate the rightmost quote character
of either kind, then the nearest *matching* quote character (of the same
kind) before it; the candidate key is the text strictly between the two. -/
def specSameKindQuoteKey (attrs : List Char) : Option String :=
  match lastIndexWhere isQuoteB attrs attrs.length with
  | none => none
  | some e =>
    match attrs[e]? with
    | none => none
    | some qc =>
      if e = 0 then none
      else
        match lastIndexWhere (fun c => c == qc) attrs (e - 1) with
        | none => none
        | some m => some (String.mk ((attrs.take e).drop (m + 1)))

/-- Claim C5 fails on mixed quote kinds: for the attribute text
`"don't" | translate` the trimmed preceding substring is `"don't"`; the
spec's same-kind rule pairs the closing double quote with the opening double
quote and predicts the key `don't`, but the code pairs it with the *nearest
quote of either kind* — the apostrophe — and emits `t`. -/
theorem same_kind_quote_counterexample :
    extractTranslationsFromString "\x22don\x27t\x22 | translate" = ["t"]
    ∧ specSameKindQuoteKey (String.toList "\x22don\x27t\x22") = some "don\x27t"
    ∧ ("t" : String) ≠ "don\x27t" :=
  ⟨by decide, by decide, by decide⟩

/-- Search result below `b` is at most `b` and really matches. -/
theorem jsLastIndexOfCharNat_some (s : List Char) (c : Char) :
    ∀ b k, jsLastIndexOfCharNat s c b = some k → k ≤ b ∧ s[k]? = some c := by
  intro b
  induction b with
  | zero =>
    intro k h
    simp only [jsLastIndexOfCharNat] at h
    split at h
    · cases h
      exact ⟨Nat.le_refl 0, by assumption⟩
    · cases h
  | succ b ih =>
    intro k h
    simp only [jsLastIndexOfCharNat] at h
    split at h
    · cases h
      exact ⟨Nat.le_refl _, by assumption⟩
    · have := ih k h
      exact ⟨Nat.le_trans this.1 (Nat.le_succ b), this.2⟩

/-- A match at `j ≤ b` guarantees a search result at least `j`. -/
theorem jsLastIndexOfCharNat_ge (s : List Char) (c : Char) :
    ∀ b j, j ≤ b → s[j]? = some c →
      ∃ k, jsLastIndexOfCharNat s c b = some k ∧ j ≤ k := by
  intro b
  induction b with
  | zero =>
    intro j hj hc
    have hj0 : j = 0 := Nat.le_zero.mp hj
    subst hj0
    exact ⟨0, by simp [jsLastIndexOfCharNat, hc], Nat.le_refl 0⟩
  | succ b ih =>
    intro j hj hc
    by_cases h : s[b + 1]? = some c
    · exact ⟨b + 1, by simp [jsLastIndexOfCharNat, h], hj⟩
    · have hj' : j ≤ b := by
        by_cases hjb : j = b + 1
        · subst hjb
          exact absurd hc h
        · omega
      obtain ⟨k, hk, hjk⟩ := ih j hj' hc
      exact ⟨k, by simp [jsLastIndexOfCharNat, h, hk], hjk⟩

/-- Without quotes above `e`, a quote-character search stays at or below `e`. -/
theorem jsLastIndexOfCharNat_le_of_no_quote (s : List Char) (b e : Nat) (c : Char)
    (hc : isQuoteB c = true)
    (hmax : ∀ j, j ≤ b → e < j → quoteAt s j = false) :
    ∀ k, jsLastIndexOfCharNat s c b = some k → k ≤ e := by
  intro k hk
  obtain ⟨hkb, hkc⟩ := jsLastIndexOfCharNat_some s c b k hk
  by_contra h
  have hfalse := hmax k hkb (Nat.lt_of_not_le h)
  simp [quoteAt, hkc, hc] at hfalse

/-- With a quote of kind `c` at `e ≤ b` and no quote in `(e, b]`, the search
for `c` bounded by `b` finds exactly `e`. -/
theorem jsLastIndexOfCharNat_eq_of_quote (s : List Char) (b e : Nat) (c : Char)
    (heb : e ≤ b) (hse : s[e]? = some c) (hc : isQuoteB c = true)
    (hmax : ∀ j, j ≤ b → e < j → quoteAt s j = false) :
    jsLastIndexOfCharNat s c b = some e := by
  obtain ⟨k, hk, hek⟩ := jsLastIndexOfCharNat_ge s c b e heb hse
  have hke := jsLastIndexOfCharNat_le_of_no_quote s b e c hc hmax k hk
  rw [hk]
  congr 1
  omega

/-- With a quote at `e ≤ b` and no quote in `(e, b]`, the `Math.max` of the
single-quote and double-quote searches bounded by `b` is exactly `e`. -/
theorem maxQuote_eq (s : List Char) (b e : Nat)
    (heb : e ≤ b) (hq : quoteAt s e = true)
    (hmax : ∀ j, j ≤ b → e < j → quoteAt s j = false) :
    max (intOfOpt (jsLastIndexOfCharNat s quoteSingle b))
        (intOfOpt (jsLastIndexOfCharNat s quoteDouble b)) = (e : Int) := by
  cases hse : s[e]? with
  | none => simp [quoteAt, hse] at hq
  | some ce =>
    have hce : isQuoteB ce = true := by simpa [quoteAt, hse] using hq
    have hcases : ce = quoteSingle ∨ ce = quoteDouble := by
      simpa [isQuoteB] using hce
    rcases hcases with h | h
    · subst h
      rw [jsLastIndexOfCharNat_eq_of_quote s b e quoteSingle heb hse (by decide) hmax]
      cases h2 : jsLastIndexOfCharNat s quoteDouble b with
      | none =>
        simp only [intOfOpt]
        omega
      | some k2 =>
        have hk2 := jsLastIndexOfCharNat_le_of_no_quote s b e quoteDouble (by decide) hmax k2 h2
        simp only [intOfOpt]
        omega
    · subst h
      rw [jsLastIndexOfCharNat_eq_of_quote s b e quoteDouble heb hse (by decide) hmax]
      cases h2 : jsLastIndexOfCharNat s quoteSingle b with
      | none =>
        simp only [intOfOpt]
        omega
      | some k2 =>
        have hk2 := jsLastIndexOfCharNat_le_of_no_quote s b e quoteSingle (by decide) hmax k2 h2
        simp only [intOfOpt]
        omega

/-- `jsLastIndexOfChar` through `intOfOpt`. -/
theorem jsLastIndexOfChar_eq (s : List Char) (c : Char) (pos : Int) :
    jsLastIndexOfChar s c pos
      = intOfOpt (jsLastIndexOfCharNat s c ((min (max pos 0) ((s.length : Int))).toNat)) := by
  unfold jsLastIndexOfChar intOfOpt
  rfl

/-- `substring` with in-range ordered endpoints is take-then-drop. -/
theorem jsSubstring_of_le (s : List Char) (a b : Nat) (hab : a ≤ b) (hb : b ≤ s.length) :
    jsSubstring s (a : Int) (b : Int) = (s.take b).drop a := by
  simp only [jsSubstring]
  have h1 : min (max ((a : Int)) 0) ((s.length : Int)) = (a : Int) := by omega
  have h2 : min (max ((b : Int)) 0) ((s.length : Int)) = (b : Int) := by omega
  rw [h1, h2]
  have h3 : max ((a : Int)) ((b : Int)) = (b : Int) := by omega
  have h4 : min ((a : Int)) ((b : Int)) = (a : Int) := by omega
  rw [h3, h4]
  simp

/-- Claim C5 (amended): for the trimmed substring `attrs` preceding a
`'| translate'` occurrence, when `e` is the rightmost quote position (either
kind) and `m` the rightmost position of a quote *of either kind* — not
necessarily the matching kind — strictly before `e`, the emitted candidate
is the trimmed text strictly between positions `m` and `e`, falling back to
the unresolved marker when that span trims to nothing. -/
theorem pipe_quote_either_kind (attrs : List Char) (e m : Nat)
    (he : quoteAt attrs e = true)
    (hmax : ∀ j, j < attrs.length → e < j → quoteAt attrs j = false)
    (hme : m < e)
    (hm : quoteAt attrs m = true)
    (hbt : ∀ j, j < e → m < j → quoteAt attrs j = false) :
    extractKeyNearMarker attrs =
      (let key := jsTrim ((attrs.take e).drop (m + 1))
       if key.isEmpty then
         UNABLE_TO_RESOLVE_VALUE ++ ": " ++ stripWhitespace (String.mk attrs)
       else String.mk key) := by
  have helen : e < attrs.length := by
    by_contra hlen
    have hnone : attrs[e]? = none := List.getElem?_eq_none (by omega)
    simp [quoteAt, hnone] at he
  have hmax' : ∀ j, j ≤ attrs.length → e < j → quoteAt attrs j = false := by
    intro j hj hej
    rcases Nat.lt_or_ge j attrs.length with h | h
    · exact hmax j h hej
    · have hnone : attrs[j]? = none := List.getElem?_eq_none (by omega)
      simp [quoteAt, hnone]
  have hbt' : ∀ j, j ≤ e - 1 → m < j → quoteAt attrs j = false := by
    intro j hj hmj
    exact hbt j (by omega) hmj
  have hlen1 : ((min (max ((attrs.length : Int)) 0) ((attrs.length : Int))).toNat)
      = attrs.length := by omega
  have hlen2 : ((min (max ((e : Int) - 1) 0) ((attrs.length : Int))).toNat) = e - 1 := by
    omega
  have hE : max (jsLastIndexOfChar attrs quoteSingle ((attrs.length : Int)))
      (jsLastIndexOfChar attrs quoteDouble ((attrs.length : Int))) = (e : Int) := by
    rw [jsLastIndexOfChar_eq, jsLastIndexOfChar_eq, hlen1]
    exact maxQuote_eq attrs attrs.length e (Nat.le_of_lt helen) he hmax'
  have hM : max (jsLastIndexOfChar attrs quoteSingle ((e : Int) - 1))
      (jsLastIndexOfChar attrs quoteDouble ((e : Int) - 1)) = (m : Int) := by
    rw [jsLastIndexOfChar_eq, jsLastIndexOfChar_eq, hlen2]
    exact maxQuote_eq attrs (e - 1) m (by omega) hm hbt'
  simp only [extractKeyNearMarker]
  rw [hE, hM]
  have hcast : ((m : Int) + 1) = ((m + 1 : Nat) : Int) := by omega
  rw [hcast, jsSubstring_of_le attrs (m + 1) e (by omega) (by omega)]

/-- Witness for the amended C5 at `"don't"`: the rightmost quote is the
closing double quote (position 6), the nearest quote of either kind before
it is the apostrophe (position 4), and the emitted key is `t`. -/
theorem pipe_quote_either_kind_witness :
    extractKeyNearMarker (String.toList "\x22don\x27t\x22") = "t" := by
  have h := pipe_quote_either_kind (String.toList "\x22don\x27t\x22") 6 4
    (by decide) (by decide) (by decide) (by decide) (by decide)
  rw [h]
  decide
